import Mathlib

/-!
Verification development for a small BFT replicated-state-machine simulator
(Python sources under `src/`).  The Python code is shallowly embedded:

* Python dicts become association lists (`aGet`/`aSet` keep Python's
  replace-in-place / append-at-end update order, which is what dict
  iteration order observes);
* `json.dumps(x, sort_keys=True, separators=sep)` becomes `dumpVal`,
  parametrised by the two separator strings; `hash_data` uses the minimal
  separators `","`/`":"`, while `Signer._create_message` calls `json.dumps`
  with Python's default separators `", "`/`": "`;
* SHA-256 is modelled by the injective tagging function `sha256hex`
  (the development only relies on SHA-256 being deterministic and
  collision-free);
* Ed25519 is modelled by an idealized scheme in which a signature records
  the signing key and the exact message bytes, and verification checks both
  against the presented public key.  This captures exactly the guarantees
  the code relies on (a signature verifies under a public key iff it was
  produced by the matching private key over the same bytes) and the fact
  that vote verification trusts whatever public key rides along with the
  message;
* the float division in the majority test
  `len(voters) > len(validators) / 2` is exact on the values involved
  (integers and halves of integers), so the test is embedded as the
  equivalent integer comparison, with the equivalence to the source's
  rational comparison proved in `majority_iff_majorityQ`;
* `time.time()` stamps only ever meet the code in the comparison
  `now - last_sync_time < 0.3`; they are modelled as integers counting
  tenths of a second (`sync_interval = 3`), which preserves exactly the
  ordering/threshold behaviour the code observes;
* exceptions become `Option` (`none` = raise).
-/

namespace BlockSim

/-- Scalar JSON values appearing in this program's payloads. -/
inductive JScalar where
  | s (v : String)
  | n (v : Nat)
deriving DecidableEq

/-- JSON values as fed to `json.dumps` by this program.  `json.dumps` accepts
arbitrary nesting, but every value this code serialises is either a flat
string-keyed dict of scalars (`obj`: transaction dicts, vote dicts, block
header dicts) or a list of `(key, value)` string tuples (`pairsArr`: the
sorted state items in `hash_state`), so the embedding models exactly these
shapes. -/
inductive JVal where
  | s (v : String)
  | n (v : Nat)
  | obj (fields : List (String × JScalar))
  | pairsArr (elems : List (String × String))
deriving DecidableEq

/-- Rendering of a JSON string literal.  The payloads this program ever
serialises (identifiers, key paths, hex digests, decimal strings) contain no
characters that `json.dumps` escapes, so plain quoting is faithful. -/
def renderString (v : String) : String := "\x22" ++ v ++ "\x22"

/-- Python string comparison (code-point lexicographic `<`), written as an
executable recursion over the character lists.  This is the same relation as
Lean's built-in `String` order, whose decision procedure is however defined
by well-founded recursion and therefore opaque to the kernel. -/
def charsLtB : List Char → List Char → Bool
  | [], [] => false
  | [], _ :: _ => true
  | _ :: _, [] => false
  | a :: as, b :: bs => if a < b then true else if b < a then false else charsLtB as bs

def strLtB (a b : String) : Bool := charsLtB a.data b.data

/-- Python `str.startswith`, executable over the character lists (Lean's
`String.startsWith` is byte-iterator based and opaque to the kernel). -/
def startsWithB (s p : String) : Bool := p.data.isPrefixOf s.data

def strLeB (a b : String) : Bool := ! strLtB b a

/-- Key-only comparison used by `sort_keys=True` (Python sorts dict items by
their string key; keys of a dict are unique, so ties cannot occur). -/
def keyLe {β : Type} (a b : String × β) : Prop := strLeB a.1 b.1 = true

/-- Strict version of `keyLe`. -/
def keyLt {β : Type} (a b : String × β) : Prop := strLtB a.1 b.1 = true

instance {β : Type} : DecidableRel (@keyLe β) :=
  fun a b => inferInstanceAs (Decidable (strLeB a.1 b.1 = true))

instance {β : Type} : DecidableRel (@keyLt β) :=
  fun a b => inferInstanceAs (Decidable (strLtB a.1 b.1 = true))

/-- Rendering of a scalar. -/
def renderScalar : JScalar → String
  | .s v => renderString v
  | .n v => Nat.repr v

/-- `json.dumps` with `sort_keys=True` and item/key separators `isep`/`ksep`
on the value shapes this program serialises.  `sort_keys=True` sorts dict
items by key (`insertionSort keyLe`; dict keys are unique so there are no
ties and any stable sort agrees with Python's). -/
def dumpVal (isep ksep : String) : JVal → String
  | .s v => renderString v
  | .n v => Nat.repr v
  | .obj fields =>
      "\x7b" ++ String.intercalate isep
        ((fields.insertionSort keyLe).map fun p => renderString p.1 ++ ksep ++ renderScalar p.2)
        ++ "\x7d"
  | .pairsArr elems =>
      "[" ++ String.intercalate isep
        (elems.map fun p => "[" ++ renderString p.1 ++ isep ++ renderString p.2 ++ "]")
        ++ "]"

/-- The canonical encoding `hash_data` feeds to SHA-256:
`json.dumps(data, sort_keys=True, separators=(',', ':'))`. -/
def canonicalJson (v : JVal) : String := dumpVal "," ":" v

/-- The encoding `Signer._create_message` uses:
`json.dumps(data, sort_keys=True)` with Python's default separators. -/
def defaultJson (v : JVal) : String := dumpVal ", " ": " v

/-- Idealized SHA-256 hex digest: an injective tag of the input bytes.  The
development relies only on SHA-256 being a deterministic, collision-free
function, which this models exactly; digests are distinguishable from the
sentinel strings `"genesis"` etc. by the tag. -/
def sha256hex (preimage : String) : String := "sha256(" ++ preimage ++ ")"

/-- `Hasher.hash_data` (src/src/crypto/hashing.py). -/
def hashData (v : JVal) : String := sha256hex (canonicalJson v)

/-- Python `sorted` on `(key, value)` string tuples: lexicographic tuple
comparison (compare keys, then values). -/
def pairLe (a b : String × String) : Prop :=
  (strLtB a.1 b.1 || (a.1 == b.1 && strLeB a.2 b.2)) = true

instance : DecidableRel pairLe := fun a b =>
  inferInstanceAs (Decidable ((strLtB a.1 b.1 || (a.1 == b.1 && strLeB a.2 b.2)) = true))

/-- `sorted(state_dict.items())` from `Hasher.hash_state`. -/
def sortedItems (d : List (String × String)) : List (String × String) :=
  d.insertionSort pairLe

/-- A list of `(key, value)` tuples as the JSON value `json.dumps` sees. -/
def itemsToJ (d : List (String × String)) : JVal :=
  .pairsArr d

/-- `Hasher.hash_state` (src/src/crypto/hashing.py): hash of the key-sorted
item list. -/
def hashState (d : List (String × String)) : String :=
  hashData (itemsToJ (sortedItems d))

/-! ### Idealized Ed25519 and the signing envelope (src/src/crypto) -/

abbrev PrivKey := Nat
abbrev PubKey := Nat

/-- In the idealized scheme the public key determines (and equals) the
private key's identity. -/
def pubKeyOf (sk : PrivKey) : PubKey := sk

/-- An idealized signature: records which key signed which bytes. -/
structure Sig where
  key : Nat
  message : String
deriving DecidableEq

def domainTX : String := "TX"
def domainHEADER : String := "HEADER"
def domainVOTE : String := "VOTE"

/-- `Signer._create_message` (src/src/crypto/signatures.py): the UTF-8
bytes of domain, chain id and the serialised payload joined by colons.
Note: there `json.dumps` is called WITHOUT a `separators` argument, so
Python's defaults (comma-space and colon-space) apply. -/
def signerMessage (chainId domain : String) (data : JVal) : String :=
  domain ++ ":" ++ chainId ++ ":" ++ defaultJson data

def signData (chainId domain : String) (sk : PrivKey) (data : JVal) : Sig :=
  ⟨sk, signerMessage chainId domain data⟩

def verifyData (chainId domain : String) (pk : PubKey) (data : JVal) (sig : Sig) : Bool :=
  sig.key == pk && sig.message == signerMessage chainId domain data

def signTransactionSig (chainId : String) (sk : PrivKey) (d : JVal) : Sig :=
  signData chainId domainTX sk d

def verifyTransactionSig (chainId : String) (pk : PubKey) (d : JVal) (sig : Sig) : Bool :=
  verifyData chainId domainTX pk d sig

def signVoteSig (chainId : String) (sk : PrivKey) (d : JVal) : Sig :=
  signData chainId domainVOTE sk d

def verifyVoteSig (chainId : String) (pk : PubKey) (d : JVal) (sig : Sig) : Bool :=
  verifyData chainId domainVOTE pk d sig

/-! ### Association lists with Python dict update semantics -/

def aGet {κ β : Type} [DecidableEq κ] (k : κ) : List (κ × β) → Option β
  | [] => none
  | p :: rest => if p.1 = k then some p.2 else aGet k rest

def aSet {κ β : Type} [DecidableEq κ] (k : κ) (v : β) : List (κ × β) → List (κ × β)
  | [] => [(k, v)]
  | p :: rest => if p.1 = k then (k, v) :: rest else p :: aSet k v rest

/-! ### Transaction (src/src/execution/transaction.py) -/

structure Transaction where
  sender : String
  key : String
  value : String
  signature : Option Sig
  publicKey : Option PubKey
deriving DecidableEq

/-- `Transaction.to_dict`. -/
def Transaction.toDict (t : Transaction) : JVal :=
  .obj [("sender", .s t.sender), ("key", .s t.key), ("value", .s t.value)]

/-- `Transaction.verify(chain_id)`. -/
def Transaction.verify (t : Transaction) (chainId : String) : Bool :=
  match t.signature, t.publicKey with
  | some sig, some pk =>
      if ¬ startsWithB t.key (t.sender ++ "/") then false
      else verifyTransactionSig chainId pk t.toDict sig
  | _, _ => false

/-! ### State (src/src/execution/state.py)

`State.__init__` takes no chain identifier (even though `Node.__init__`
passes one — see claim C5), and `apply_transaction` calls `tx.verify()`
with the DEFAULT chain id `"mainnet"`. -/

structure State where
  data : List (String × String)
deriving DecidableEq

def State.get (s : State) (k : String) : Option String := aGet k s.data

def State.set (s : State) (k v : String) : State := ⟨aSet k v s.data⟩

/-- `State.apply_transaction`: raises (`none`) iff `tx.verify()` — verified
against the hard default `"mainnet"` — is false; otherwise writes the key. -/
def State.applyTransaction (s : State) (t : Transaction) : Option State :=
  if t.verify "mainnet" then some (s.set t.key t.value) else none

def State.commitment (s : State) : String := hashState s.data

def State.copy (s : State) : State := s

/-! ### Block (src/src/execution/block.py) -/

structure Block where
  height : Nat
  parentHash : String
  transactions : List Transaction
  stateHash : String
  proposerSignature : Option Sig
deriving DecidableEq

/-- `Block._compute_hash`: hash of
`{height, parent_hash, tx_count, state_hash}`. -/
def Block.computeHash (b : Block) : String :=
  hashData (.obj
    [("height", .n b.height),
     ("parent_hash", .s b.parentHash),
     ("tx_count", .n b.transactions.length),
     ("state_hash", .s b.stateHash)])

/-- `block.hash` is set once at construction from the immutable fields, so it
is modelled as the derived function. -/
def Block.hash (b : Block) : String := b.computeHash

/-- `Block.header_data`. -/
def Block.headerData (b : Block) : JVal :=
  .obj [("height", .n b.height), ("parent_hash", .s b.parentHash),
        ("state_hash", .s b.stateHash)]

/-! ### Votes (src/src/consensus/vote.py and the vote dicts in node.py) -/

structure VoteData where
  height : Nat
  blockHash : String
  phase : String
  voter : String
deriving DecidableEq

/-- The vote payload dict `{height, block_hash, phase, voter}`. -/
def VoteData.toJ (v : VoteData) : JVal :=
  .obj [("height", .n v.height), ("block_hash", .s v.blockHash),
        ("phase", .s v.phase), ("voter", .s v.voter)]

/-- A vote as carried in PREVOTE/PRECOMMIT messages:
`{"data": ..., "signature": ..., "public_key": ...}`. -/
structure VoteMsg where
  data : VoteData
  signature : Sig
  publicKey : PubKey
deriving DecidableEq

/-- The source's strict-majority test `len(voters) > len(validators) / 2`,
as the exact comparison it performs: Python's float division and comparison
are exact on the integers and half-integers involved, so the test equals
this rational comparison. -/
def majorityQ (validatorCount voteCount : Nat) : Prop :=
  (voteCount : Rat) > (validatorCount : Rat) / 2

/-- Kernel-executable form of the majority test; `majority_iff_majorityQ`
below proves it equal to the source's comparison. -/
def majority (validatorCount voteCount : Nat) : Bool :=
  decide (validatorCount < 2 * voteCount)

/-- `VoteCollector` (src/src/consensus/vote.py). -/
structure VoteCollector where
  validators : List String
  totalValidators : Nat
  chainId : String
  prevotes : List ((Nat × String) × List String)
  precommits : List ((Nat × String) × List String)

/-- `VoteCollector.get_prevote_count`. -/
def VoteCollector.getPrevoteCount (vc : VoteCollector) (h : Nat) (bh : String) : Nat :=
  ((aGet (h, bh) vc.prevotes).getD []).length

/-- `VoteCollector.has_prevote_majority`. -/
def VoteCollector.hasPrevoteMajority (vc : VoteCollector) (h : Nat) (bh : String) : Bool :=
  match aGet (h, bh) vc.prevotes with
  | none => false
  | some voters => majority vc.totalValidators voters.length

/-- `VoteCollector.get_precommit_count`. -/
def VoteCollector.getPrecommitCount (vc : VoteCollector) (h : Nat) (bh : String) : Nat :=
  ((aGet (h, bh) vc.precommits).getD []).length

/-- `VoteCollector.has_precommit_majority`. -/
def VoteCollector.hasPrecommitMajority (vc : VoteCollector) (h : Nat) (bh : String) : Bool :=
  match aGet (h, bh) vc.precommits with
  | none => false
  | some voters => majority vc.totalValidators voters.length

/-! ### Messages (src/src/network/message.py) -/

inductive MessageType where
  | transaction
  | blockHeader
  | blockBody
  | prevote
  | precommit
  | requestBlock
deriving DecidableEq

/-- Message payloads are dynamically typed in Python; the handlers only ever
look at the shapes below (`raw` stands for any other object, which the
transaction handler's `hasattr` guard skips). -/
inductive Payload where
  | tx (t : Transaction)
  | block (b : Block)
  | vote (v : VoteMsg)
  | request (height : Nat) (requester : String)
  | raw (s : String)
deriving DecidableEq

structure Message where
  msgType : MessageType
  senderId : String
  payload : Payload
  msgId : String
deriving DecidableEq

/-- An outbound message as handed to `network.broadcast`/`network.send`.
The wall-clock-derived `msg_id` Python generates for outbound messages is
not modelled: self-delivery bypasses `receive_message` (and hence the dedupe
set), so that id never influences the sending node's state. -/
structure OutMsg where
  msgType : MessageType
  senderId : String
  payload : Payload
deriving DecidableEq

/-! ### Node (src/src/network/node.py) -/

structure Node where
  nodeId : String
  isValidator : Bool
  chainId : String
  privKey : PrivKey
  state : State
  ledger : List Block
  pendingTransactions : List Transaction
  currentHeight : Nat
  pendingBlocks : List (Nat × Block)
  prevotes : List (Nat × List (String × List String))
  precommits : List (Nat × List (String × List String))
  seenMessages : List String
  validators : List String
  sentPrevotes : List (Nat × String)
  sentPrecommits : List (Nat × String)
  lastSyncTime : Int
  syncInterval : Int
  outbox : List OutMsg
deriving DecidableEq

/-- `Node.__init__`.  (In the Python source this constructor would actually
raise `TypeError`, because it calls `State(chain_id)` while `State.__init__`
accepts no chain id — see claim C5; the model initialises the empty state
the call intends.) -/
def Node.init (nodeId : String) (isValidator : Bool) (chainId : String) (sk : PrivKey) : Node :=
  { nodeId := nodeId
    isValidator := isValidator
    chainId := chainId
    privKey := sk
    state := ⟨[]⟩
    ledger := []
    pendingTransactions := []
    currentHeight := 0
    pendingBlocks := []
    prevotes := []
    precommits := []
    seenMessages := []
    validators := []
    sentPrevotes := []
    sentPrecommits := []
    lastSyncTime := 0
    syncInterval := 3
    outbox := [] }

/-- `Node.set_validators` (Python builds a `set`). -/
def Node.setValidators (n : Node) (ids : List String) : Node :=
  { n with validators := ids.dedup }

/-- Record a voter in a two-level vote book
(`book[height][block_hash].add(voter)`, creating levels as needed;
the voter set is kept duplicate-free like a Python `set`). -/
def addVoter (book : List (Nat × List (String × List String)))
    (h : Nat) (bh voter : String) : List (Nat × List (String × List String)) :=
  let inner := (aGet h book).getD []
  let voters := (aGet bh inner).getD []
  let voters' := if voter ∈ voters then voters else voters ++ [voter]
  aSet h (aSet bh voters' inner) book

/-- `len(book[height][block_hash])` with missing levels counting as empty. -/
def voterCount (book : List (Nat × List (String × List String)))
    (h : Nat) (bh : String) : Nat :=
  ((aGet bh ((aGet h book).getD [])).getD []).length

/-- The transaction loop inside `Node._validate_block`: each transaction must
pass `tx.verify(self.chain_id)` and then apply to the speculative state
(which re-verifies against the default `"mainnet"`). -/
def applyAll (chainId : String) (st : State) : List Transaction → Option State
  | [] => some st
  | t :: ts =>
      if ¬ t.verify chainId then none
      else
        match st.applyTransaction t with
        | none => none
        | some st' => applyAll chainId st' ts

/-- `Node._validate_block`. -/
def validateBlock (n : Node) (b : Block) : Bool :=
  if b.height ≠ n.currentHeight + 1 then false
  else
    let parentOk : Bool :=
      match n.ledger.getLast? with
      | some lastB => b.parentHash == lastB.hash
      | none => ! (b.height == 1 && b.parentHash != "genesis")
    if ¬ parentOk then false
    else
      match applyAll n.chainId n.state.copy b.transactions with
      | none => false
      | some temp => temp.commitment == b.stateHash

/-- The apply loop of `Node._finalize_block`: transactions are applied one by
one to the LIVE state; on the first failure the loop stops, keeping the
writes already made (`false` = some transaction raised). -/
def applyTxsLive (st : State) : List Transaction → State × Bool
  | [] => (st, true)
  | t :: ts =>
      match st.applyTransaction t with
      | some st' => applyTxsLive st' ts
      | none => (st, false)

/-- `Node._cleanup_old_data`: drop vote books and pending blocks for all
heights `≤ finalizedHeight`. -/
def cleanupOldData (n : Node) (finalizedHeight : Nat) : Node :=
  { n with
    prevotes := n.prevotes.filter fun p => decide (finalizedHeight < p.1)
    precommits := n.precommits.filter fun p => decide (finalizedHeight < p.1)
    pendingBlocks := n.pendingBlocks.filter fun p => decide (finalizedHeight < p.1) }

/- The fuel parameter of the mutually recursive handler cluster below bounds
the recursion depth.  Python's recursion always terminates (each send is
guarded by the sent-vote sets, which grow before the recursive self-receive,
and each successful finalize strictly increases `current_height`), so any
fuel larger than the real recursion depth computes the source behaviour;
exhausted fuel returns the node unchanged. -/
mutual

/-- `Node._finalize_block`. -/
def finalizeBlock : Nat → Node → Nat → String → Node
  | 0, n, _, _ => n
  | Nat.succ fuel, n, height, blockHash =>
      if height ≠ n.currentHeight + 1 then n
      else if height ≤ n.currentHeight then n
      else
        match aGet height n.pendingBlocks with
        | none => n
        | some b =>
            if b.hash ≠ blockHash then n
            else
              match applyTxsLive n.state b.transactions with
              | (st', false) => { n with state := st' }
              | (st', true) =>
                  let n' := { n with
                    state := st'
                    ledger := n.ledger ++ [b]
                    currentHeight := height }
                  tryFinalizeNext fuel (cleanupOldData n' height)

/-- `Node._try_finalize_next`. -/
def tryFinalizeNext : Nat → Node → Node
  | 0, n => n
  | Nat.succ fuel, n =>
      match aGet (n.currentHeight + 1) n.pendingBlocks with
      | none => n
      | some _ =>
          match aGet (n.currentHeight + 1) n.precommits with
          | none => n
          | some inner => scanPrecommits fuel n (n.currentHeight + 1) inner

/-- The `for block_hash, voters in self.precommits[next_height].items()` loop
of `_try_finalize_next` (dict iteration order = insertion order of the
association list). -/
def scanPrecommits : Nat → Node → Nat → List (String × List String) → Node
  | 0, n, _, _ => n
  | Nat.succ fuel, n, nextHeight, entries =>
      match entries with
      | [] => n
      | (blockHash, voters) :: rest =>
          if majority n.validators.length voters.length then
            match aGet nextHeight n.pendingBlocks with
            | some b =>
                if b.hash == blockHash then
                  if validateBlock n b then finalizeBlock fuel n nextHeight blockHash
                  else scanPrecommits fuel n nextHeight rest
                else scanPrecommits fuel n nextHeight rest
            | none => scanPrecommits fuel n nextHeight rest
          else scanPrecommits fuel n nextHeight rest

/-- `Node._send_prevote`: broadcast, record in `sent_prevotes`, then
self-receive via a direct `_handle_prevote` call. -/
def sendPrevote : Nat → Node → Block → Node
  | 0, n, _ => n
  | Nat.succ fuel, n, b =>
      if (b.height, b.hash) ∈ n.sentPrevotes then n
      else
        let vd : VoteData := ⟨b.height, b.hash, "prevote", n.nodeId⟩
        let vm : VoteMsg := ⟨vd, signVoteSig n.chainId n.privKey vd.toJ, pubKeyOf n.privKey⟩
        let n' := { n with
          outbox := n.outbox ++ [⟨MessageType.prevote, n.nodeId, Payload.vote vm⟩]
          sentPrevotes := n.sentPrevotes ++ [(b.height, b.hash)] }
        handlePrevote fuel n' vm

/-- `Node._send_precommit`. -/
def sendPrecommit : Nat → Node → Nat → String → Node
  | 0, n, _, _ => n
  | Nat.succ fuel, n, height, blockHash =>
      if (height, blockHash) ∈ n.sentPrecommits then n
      else
        let vd : VoteData := ⟨height, blockHash, "precommit", n.nodeId⟩
        let vm : VoteMsg := ⟨vd, signVoteSig n.chainId n.privKey vd.toJ, pubKeyOf n.privKey⟩
        let n' := { n with
          outbox := n.outbox ++ [⟨MessageType.precommit, n.nodeId, Payload.vote vm⟩]
          sentPrecommits := n.sentPrecommits ++ [(height, blockHash)] }
        handlePrecommit fuel n' vm

/-- `Node._handle_prevote`. -/
def handlePrevote : Nat → Node → VoteMsg → Node
  | 0, n, _ => n
  | Nat.succ fuel, n, vm =>
      if ¬ verifyVoteSig n.chainId vm.publicKey vm.data.toJ vm.signature then n
      else if vm.data.height < n.currentHeight + 1 then n
      else if vm.data.voter ∉ n.validators then n
      else
        let n' := { n with
          prevotes := addVoter n.prevotes vm.data.height vm.data.blockHash vm.data.voter }
        if majority n'.validators.length
            (voterCount n'.prevotes vm.data.height vm.data.blockHash) then
          let n'' := if n'.isValidator then
              sendPrecommit fuel n' vm.data.height vm.data.blockHash
            else n'
          match aGet vm.data.height n''.pendingBlocks with
          | some b =>
              if b.hash == vm.data.blockHash then
                if (vm.data.height, vm.data.blockHash) ∉ n''.sentPrevotes ∧ n''.isValidator then
                  if validateBlock n'' b then sendPrevote fuel n'' b else n''
                else n''
              else n''
          | none => n''
        else n'

/-- `Node._handle_precommit`. -/
def handlePrecommit : Nat → Node → VoteMsg → Node
  | 0, n, _ => n
  | Nat.succ fuel, n, vm =>
      if ¬ verifyVoteSig n.chainId vm.publicKey vm.data.toJ vm.signature then n
      else if vm.data.height < n.currentHeight + 1 then n
      else if vm.data.voter ∉ n.validators then n
      else
        let n' := { n with
          precommits := addVoter n.precommits vm.data.height vm.data.blockHash vm.data.voter }
        if majority n'.validators.length
            (voterCount n'.precommits vm.data.height vm.data.blockHash) then
          finalizeBlock fuel n' vm.data.height vm.data.blockHash
        else n'

/-- `Node._handle_block_header`. -/
def handleBlockHeader : Nat → Node → Block → Node
  | 0, n, _ => n
  | Nat.succ fuel, n, b =>
      if b.height < n.currentHeight + 1 then n
      else if b.height > n.currentHeight + 1 then
        { n with pendingBlocks := aSet b.height b n.pendingBlocks }
      else if ¬ validateBlock n b then n
      else
        let n' := { n with pendingBlocks := aSet b.height b n.pendingBlocks }
        if n'.isValidator then sendPrevote fuel n' b else n'

/-- `Node._try_sync`.  The Python loop runs over `sorted(pending_blocks)` but
only the entry at `current_height + 1` has any effect, so the model looks
that height up directly.  When the majority-precommit branch finds an
invalid block it falls through to the prevote branch, exactly as the
source's control flow does. -/
def trySync : Nat → Int → Node → Node
  | 0, _, n => n
  | Nat.succ fuel, now, n =>
      if now - n.lastSyncTime < n.syncInterval then n
      else
        let n' := { n with lastSyncTime := now }
        match aGet (n'.currentHeight + 1) n'.pendingBlocks with
        | none => n'
        | some b =>
            let hasMaj : Bool :=
              match aGet (n'.currentHeight + 1) n'.precommits with
              | none => false
              | some inner =>
                  match aGet b.hash inner with
                  | none => false
                  | some voters => majority n'.validators.length voters.length
            if hasMaj && validateBlock n' b then
              finalizeBlock fuel n' (n'.currentHeight + 1) b.hash
            else if n'.isValidator
                && decide ((n'.currentHeight + 1, b.hash) ∉ n'.sentPrevotes)
                && validateBlock n' b then
              sendPrevote fuel n' b
            else n'

end

/-- `Node._handle_transaction` (with the defensive `hasattr(tx, 'verify')`
guard: non-transaction payloads are skipped). -/
def handleTransaction (n : Node) (p : Payload) : Node :=
  match p with
  | .tx t =>
      if t.verify n.chainId then
        { n with pendingTransactions := n.pendingTransactions ++ [t] }
      else n
  | _ => n

/-- `Node._handle_block_request`.  `ledger[requested_height - 1]` with
`requested_height = 0` is Python's `ledger[-1]` (last element; an empty
ledger would raise IndexError, modelled as no-op). -/
def handleBlockRequest (n : Node) (p : Payload) : Node :=
  match p with
  | .request height _ =>
      if height ≤ n.ledger.length then
        match (if height = 0 then n.ledger.getLast? else n.ledger.get? (height - 1)) with
        | some b =>
            { n with outbox := n.outbox ++ [⟨MessageType.blockHeader, n.nodeId, Payload.block b⟩] }
        | none => n
      else n
  | _ => n

/-- `Node.receive_message`: dedupe on `msg_id`, then `_try_sync`, then
dispatch on the message type.  `now` is the value `time.time()` returns
during this call. -/
def receiveMessage (fuel : Nat) (now : Int) (n : Node) (m : Message) : Node :=
  if m.msgId ∈ n.seenMessages then n
  else
    let n₁ := { n with seenMessages := n.seenMessages ++ [m.msgId] }
    let n₂ := trySync fuel now n₁
    match m.msgType with
    | .transaction => handleTransaction n₂ m.payload
    | .blockHeader =>
        match m.payload with
        | .block b => handleBlockHeader fuel n₂ b
        | _ => n₂
    | .prevote =>
        match m.payload with
        | .vote v => handlePrevote fuel n₂ v
        | _ => n₂
    | .precommit =>
        match m.payload with
        | .vote v => handlePrecommit fuel n₂ v
        | _ => n₂
    | .requestBlock => handleBlockRequest n₂ m.payload
    | .blockBody => n₂

/-- The ledger-chaining predicate of the spec:
`ledger[0].parent_hash == "genesis"` and
`ledger[i].parent_hash == ledger[i-1].hash` for `i ≥ 1`. -/
def chainedAfter (prev : Block) : List Block → Bool
  | [] => true
  | b :: rest => (b.parentHash == prev.hash) && chainedAfter b rest

def chainOk : List Block → Bool
  | [] => true
  | b :: rest => (b.parentHash == "genesis") && chainedAfter b rest

/-- Fields of a node that no consensus handler ever rewrites (identity,
configuration, the transaction queue, the dedupe set) together with the
monotonicity of the authored-vote sets. -/
def Preserves (n n' : Node) : Prop :=
  n'.nodeId = n.nodeId ∧
  n'.isValidator = n.isValidator ∧
  n'.chainId = n.chainId ∧
  n'.privKey = n.privKey ∧
  n'.pendingTransactions = n.pendingTransactions ∧
  n'.seenMessages = n.seenMessages ∧
  n'.validators = n.validators ∧
  (∀ x, x ∈ n.sentPrevotes → x ∈ n'.sentPrevotes) ∧
  (∀ x, x ∈ n.sentPrecommits → x ∈ n'.sentPrecommits)

/-! ### Concrete adversarial execution used by the finalization claims.

An outsider (key `advSk`, not a validator) first sends a header for the
future height 2 — stored unvalidated, as the source does for heights
`> current_height + 1` — then a valid header for height 1, then forged
precommits.  Vote verification checks the signature against the public key
carried IN the vote itself, so the outsider can cast precommits for any
validator id. -/

def advSk : PrivKey := 99

def blockB1 : Block :=
  { height := 1
    parentHash := "genesis"
    transactions := []
    stateHash := State.commitment ⟨[]⟩
    proposerSignature := none }

/-- A block for height 2 whose parent hash matches nothing. -/
def blockB2 : Block :=
  { height := 2
    parentHash := "evil"
    transactions := []
    stateHash := "junk"
    proposerSignature := none }

def forgedPrecommit (h : Nat) (bh voter msgId : String) : Message :=
  ⟨MessageType.precommit, "adv",
   Payload.vote ⟨⟨h, bh, "precommit", voter⟩,
                 signVoteSig "mainnet" advSk (VoteData.toJ ⟨h, bh, "precommit", voter⟩),
                 pubKeyOf advSk⟩,
   msgId⟩

def victim0 : Node := (Node.init "victim" false "mainnet" 0).setValidators ["A", "B", "C"]

def advMsgs : List Message :=
  [ ⟨MessageType.blockHeader, "adv", Payload.block blockB2, "m1"⟩,
    ⟨MessageType.blockHeader, "adv", Payload.block blockB1, "m2"⟩,
    forgedPrecommit 1 blockB1.hash "A" "m3",
    forgedPrecommit 1 blockB1.hash "B" "m4",
    forgedPrecommit 2 blockB2.hash "A" "m5",
    forgedPrecommit 2 blockB2.hash "B" "m6" ]

/-- The victim after the first five deliveries: height 1 finalized, the
unvalidated `blockB2` still buffered, one forged precommit for it recorded. -/
def victim5 : Node :=
  (advMsgs.take 5).foldl (fun n m => receiveMessage 10 0 n m) victim0

/-- The victim after all six deliveries. -/
def victimFinal : Node :=
  advMsgs.foldl (fun n m => receiveMessage 10 0 n m) victim0

/-- The spec's per-node invariant: the ledger is a well-chained list and
`current_height == |ledger|`. -/
def LedgerInv (n : Node) : Prop :=
  chainOk n.ledger = true ∧ n.currentHeight = n.ledger.length

/-! ### Small concrete artifacts used by witnesses -/

def txValidDict : JVal :=
  .obj [("sender", .s "alice"), ("key", .s "alice/x"), ("value", .s "1")]

/-- A transaction correctly signed for chain `"mainnet"`. -/
def txValid : Transaction :=
  { sender := "alice"
    key := "alice/x"
    value := "1"
    signature := some (signTransactionSig "mainnet" 5 txValidDict)
    publicKey := some (pubKeyOf 5) }

def txTestDict : JVal :=
  .obj [("sender", .s "bob"), ("key", .s "bob/y"), ("value", .s "2")]

/-- A transaction correctly signed for chain `"test"`. -/
def txTest : Transaction :=
  { sender := "bob"
    key := "bob/y"
    value := "2"
    signature := some (signTransactionSig "test" 7 txTestDict)
    publicKey := some (pubKeyOf 7) }

/-- A transaction that verifies under no chain (no signature attached). -/
def txBad : Transaction :=
  { sender := "carol", key := "carol/z", value := "3", signature := none, publicKey := none }

/-- A block whose first transaction applies and whose second raises. -/
def blockPartial : Block :=
  { height := 1
    parentHash := "genesis"
    transactions := [txValid, txBad]
    stateHash := "irrelevant"
    proposerSignature := none }

/-- A node holding `blockPartial` at the next height. -/
def cwNode : Node :=
  { (Node.init "w" true "mainnet" 11).setValidators ["A", "B", "C"] with
    pendingBlocks := [(1, blockPartial)] }

/-- An honest node holding the valid `blockB1` at the next height. -/
def hvNode : Node :=
  { (Node.init "h" false "mainnet" 12).setValidators ["A", "B", "C"] with
    pendingBlocks := [(1, blockB1)] }

/-- Two blocks agreeing on `height, parent_hash, tx_count, state_hash` but
with different transaction contents and proposer signatures. -/
def blockW1 : Block :=
  { height := 4
    parentHash := "p"
    transactions := [txValid]
    stateHash := "s"
    proposerSignature := none }

def blockW2 : Block :=
  { height := 4
    parentHash := "p"
    transactions := [txTest]
    stateHash := "s"
    proposerSignature := some ⟨9, "whatever"⟩ }

/-- A forged but verifying prevote (the attached public key matches the
signature, exactly what `verify_vote` checks). -/
def mkPrevote (h : Nat) (bh voter : String) : VoteMsg :=
  ⟨⟨h, bh, "prevote", voter⟩,
   signVoteSig "mainnet" advSk (VoteData.toJ ⟨h, bh, "prevote", voter⟩),
   pubKeyOf advSk⟩

def mkPrecommitVm (h : Nat) (bh voter : String) : VoteMsg :=
  ⟨⟨h, bh, "precommit", voter⟩,
   signVoteSig "mainnet" advSk (VoteData.toJ ⟨h, bh, "precommit", voter⟩),
   pubKeyOf advSk⟩

/-- A validator node among three validators, with one prevote and one
precommit for `(1, "bh")` already booked. -/
def n3Node : Node :=
  { (Node.init "C" true "mainnet" 21).setValidators ["A", "B", "C"] with
    prevotes := [(1, [("bh", ["A"])])]
    precommits := [(1, [("bh", ["A"])])] }

/-- A fresh transaction message for the de-duplication witness. -/
def mTx : Message :=
  ⟨MessageType.transaction, "ext", Payload.tx txValid, "t1"⟩

/-- A validator node among three validators with empty vote books. -/
def n0Node : Node := (Node.init "C" true "mainnet" 21).setValidators ["A", "B", "C"]

/-- A vote collector over three validators holding two prevotes for
`(1, "bh")`. -/
def vcW : VoteCollector :=
  { validators := ["A", "B", "C"]
    totalValidators := 3
    chainId := "mainnet"
    prevotes := [((1, "bh"), ["A", "B"])]
    precommits := [] }

set_option maxRecDepth 100000

/-! ### Order lemmas for the executable string comparison -/

theorem charsLtB_asymm : ∀ {a b : List Char}, charsLtB a b = true → charsLtB b a = false
  | [], [], h => by simp [charsLtB] at h
  | [], _ :: _, _ => by simp [charsLtB]
  | _ :: _, [], h => by simp [charsLtB] at h
  | x :: xs, y :: ys, h => by
      simp only [charsLtB] at h ⊢
      rcases lt_trichotomy x y with hxy | hxy | hxy
      · simp [hxy, not_lt_of_lt hxy]
      · subst hxy
        simp only [lt_irrefl, if_false] at h ⊢
        exact charsLtB_asymm h
      · simp [hxy, not_lt_of_lt hxy] at h

theorem charsLtB_eq_of_not : ∀ {a b : List Char},
    charsLtB a b = false → charsLtB b a = false → a = b
  | [], [], _, _ => rfl
  | [], _ :: _, h, _ => by simp [charsLtB] at h
  | _ :: _, [], _, h => by simp [charsLtB] at h
  | x :: xs, y :: ys, h1, h2 => by
      simp only [charsLtB] at h1 h2
      rcases lt_trichotomy x y with hxy | hxy | hxy
      · simp [hxy] at h1
      · subst hxy
        simp only [lt_irrefl, if_false] at h1 h2
        rw [charsLtB_eq_of_not h1 h2]
      · simp [hxy] at h2

theorem charsLtB_trans : ∀ {a b c : List Char},
    charsLtB a b = true → charsLtB b c = true → charsLtB a c = true
  | [], [], _, h1, _ => by simp [charsLtB] at h1
  | [], _ :: _, [], _, h2 => by simp [charsLtB] at h2
  | [], _ :: _, _ :: _, _, _ => by simp [charsLtB]
  | _ :: _, [], _, h1, _ => by simp [charsLtB] at h1
  | _ :: _, _ :: _, [], _, h2 => by simp [charsLtB] at h2
  | x :: xs, y :: ys, z :: zs, h1, h2 => by
      simp only [charsLtB] at h1 h2 ⊢
      rcases lt_trichotomy x y with hxy | hxy | hxy
      · rcases lt_trichotomy y z with hyz | hyz | hyz
        · simp [lt_trans hxy hyz]
        · subst hyz
          simp [hxy]
        · simp [hyz, not_lt_of_lt hyz] at h2
      · subst hxy
        rcases lt_trichotomy x z with hyz | hyz | hyz
        · simp [hyz]
        · subst hyz
          simp only [lt_irrefl, if_false] at h1 h2 ⊢
          exact charsLtB_trans h1 h2
        · simp [hyz, not_lt_of_lt hyz] at h2
      · simp [hxy, not_lt_of_lt hxy] at h1

theorem str_eq_of_data_eq {a b : String} (h : a.data = b.data) : a = b :=
  congrArg String.mk h

theorem strLtB_asymm {a b : String} (h : strLtB a b = true) : strLtB b a = false :=
  charsLtB_asymm h

theorem str_eq_of_not_ltB {a b : String} (h1 : strLtB a b = false)
    (h2 : strLtB b a = false) : a = b :=
  str_eq_of_data_eq (charsLtB_eq_of_not h1 h2)

theorem strLtB_trans {a b c : String} (h1 : strLtB a b = true)
    (h2 : strLtB b c = true) : strLtB a c = true :=
  charsLtB_trans h1 h2

theorem strLtB_of_ne_of_not_ltB {a b : String} (hne : a ≠ b)
    (h : strLtB b a = false) : strLtB a b = true := by
  cases hlt : strLtB a b
  · exact absurd (str_eq_of_not_ltB hlt h) hne
  · rfl

/-! ### `sort_keys=True` and `sorted` are insensitive to dict insertion order -/

theorem keyLe_total {β : Type} : ∀ a b : String × β, keyLe a b ∨ keyLe b a := by
  intro a b
  unfold keyLe strLeB
  cases h : strLtB b.1 a.1
  · left
    simp
  · right
    simp [strLtB_asymm h]

theorem keyLe_trans {β : Type} : ∀ a b c : String × β, keyLe a b → keyLe b c → keyLe a c := by
  intro a b c h1 h2
  unfold keyLe strLeB at h1 h2 ⊢
  simp only [Bool.not_eq_true'] at h1 h2 ⊢
  cases hca : strLtB c.1 a.1
  · rfl
  · exfalso
    cases hab : strLtB a.1 b.1
    · have hab' : a.1 = b.1 := str_eq_of_not_ltB hab h1
      rw [hab'] at hca
      rw [hca] at h2
      exact Bool.noConfusion h2
    · have := strLtB_trans hca hab
      rw [this] at h2
      exact Bool.noConfusion h2

theorem sorted_insertionSort_keyLe {β : Type} (l : List (String × β)) :
    (l.insertionSort keyLe).Sorted keyLe := by
  haveI : IsTotal (String × β) keyLe := ⟨keyLe_total⟩
  haveI : IsTrans (String × β) keyLe := ⟨keyLe_trans⟩
  exact List.sorted_insertionSort keyLe l

theorem keyLt_of_keyLe_of_ne {β : Type} {a b : String × β}
    (h : keyLe a b) (hne : a.1 ≠ b.1) : keyLt a b := by
  unfold keyLe strLeB at h
  unfold keyLt
  simp only [Bool.not_eq_true'] at h
  exact strLtB_of_ne_of_not_ltB hne h

theorem sorted_keyLt_of_sorted_keyLe {β : Type} {l : List (String × β)}
    (hs : l.Sorted keyLe) (hnd : (l.map Prod.fst).Nodup) : l.Sorted keyLt := by
  have hnd' : l.Pairwise fun a b => a.1 ≠ b.1 := by
    rw [List.Nodup, List.pairwise_map] at hnd
    exact hnd
  exact (hs.and hnd').imp fun h => keyLt_of_keyLe_of_ne h.1 h.2

theorem eq_of_perm_of_sorted_keyLt {β : Type} {l₁ l₂ : List (String × β)}
    (hp : l₁.Perm l₂) (h₁ : l₁.Sorted keyLt) (h₂ : l₂.Sorted keyLt) : l₁ = l₂ := by
  haveI : IsAntisymm (String × β) keyLt := by
    constructor
    intro a b hab hba
    unfold keyLt at hab hba
    have hf := strLtB_asymm hab
    rw [hba] at hf
    exact Bool.noConfusion hf
  exact List.eq_of_perm_of_sorted hp h₁ h₂

/-- Two association lists with the same distinct keys and the same bindings
sort identically under the key order, whatever their insertion order. -/
theorem insertionSort_keyLe_eq_of_perm {β : Type} {l₁ l₂ : List (String × β)}
    (hperm : l₁.Perm l₂) (hnd : (l₁.map Prod.fst).Nodup) :
    l₁.insertionSort keyLe = l₂.insertionSort keyLe := by
  have hs₁ := sorted_insertionSort_keyLe l₁
  have hs₂ := sorted_insertionSort_keyLe l₂
  have hp₁ : (l₁.insertionSort keyLe).Perm l₁ := List.perm_insertionSort keyLe l₁
  have hp₂ : (l₂.insertionSort keyLe).Perm l₂ := List.perm_insertionSort keyLe l₂
  have hnd₂ : (l₂.map Prod.fst).Nodup := (hperm.map Prod.fst).nodup_iff.mp hnd
  have hnd₁' : ((l₁.insertionSort keyLe).map Prod.fst).Nodup :=
    (hp₁.map Prod.fst).nodup_iff.mpr hnd
  have hnd₂' : ((l₂.insertionSort keyLe).map Prod.fst).Nodup :=
    (hp₂.map Prod.fst).nodup_iff.mpr hnd₂
  exact eq_of_perm_of_sorted_keyLt (hp₁.trans (hperm.trans hp₂.symm))
    (sorted_keyLt_of_sorted_keyLe hs₁ hnd₁')
    (sorted_keyLt_of_sorted_keyLe hs₂ hnd₂')

/-! ### The majority predicate -/

/-- The executable majority test coincides with the source's
`len(voters) > len(validators) / 2` rational (float-exact) comparison. -/
theorem majority_iff_majorityQ (v c : Nat) : majority v c = true ↔ majorityQ v c := by
  unfold majority majorityQ
  rw [decide_eq_true_iff, gt_iff_lt, div_lt_iff₀ (by norm_num : (0 : Rat) < 2)]
  constructor
  · intro h
    have h' : ((v : Nat) : Rat) < ((2 * c : Nat) : Rat) := by exact_mod_cast h
    push_cast at h'
    linarith
  · intro h
    have h' : ((v : Nat) : Rat) < ((2 * c : Nat) : Rat) := by push_cast; linarith
    exact_mod_cast h'

/-! ### Handler-cluster preservation -/

theorem preserves_refl (n : Node) : Preserves n n := by
  refine ⟨rfl, rfl, rfl, rfl, rfl, rfl, rfl, fun x hx => hx, fun x hx => hx⟩

theorem preserves_trans {a b c : Node} (h1 : Preserves a b) (h2 : Preserves b c) :
    Preserves a c := by
  obtain ⟨e1, e2, e3, e4, e5, e6, e7, m1, m2⟩ := h1
  obtain ⟨f1, f2, f3, f4, f5, f6, f7, k1, k2⟩ := h2
  exact ⟨f1.trans e1, f2.trans e2, f3.trans e3, f4.trans e4, f5.trans e5,
    f6.trans e6, f7.trans e7, fun x hx => k1 x (m1 x hx), fun x hx => k2 x (m2 x hx)⟩

set_option maxHeartbeats 2000000 in
/-- No function of the consensus cluster ever touches a node's identity, its
configuration, its transaction queue or its dedupe set, and the
authored-vote sets only grow. -/
theorem cluster_preserves : ∀ fuel : Nat,
    (∀ n h bh, Preserves n (finalizeBlock fuel n h bh)) ∧
    (∀ n, Preserves n (tryFinalizeNext fuel n)) ∧
    (∀ n nh entries, Preserves n (scanPrecommits fuel n nh entries)) ∧
    (∀ n b, Preserves n (sendPrevote fuel n b)) ∧
    (∀ n h bh, Preserves n (sendPrecommit fuel n h bh)) ∧
    (∀ n vm, Preserves n (handlePrevote fuel n vm)) ∧
    (∀ n vm, Preserves n (handlePrecommit fuel n vm)) ∧
    (∀ n b, Preserves n (handleBlockHeader fuel n b)) ∧
    (∀ now n, Preserves n (trySync fuel now n)) := by
  intro fuel
  induction fuel with
  | zero =>
      exact ⟨fun n _ _ => preserves_refl n, fun n => preserves_refl n,
        fun n _ _ => preserves_refl n, fun n _ => preserves_refl n,
        fun n _ _ => preserves_refl n, fun n _ => preserves_refl n,
        fun n _ => preserves_refl n, fun n _ => preserves_refl n,
        fun _ n => preserves_refl n⟩
  | succ fuel ih =>
      obtain ⟨ihF, ihT, ihS, ihSPv, ihSPc, ihHPv, ihHPc, ihHB, ihSync⟩ := ih
      refine ⟨?_, ?_, ?_, ?_, ?_, ?_, ?_, ?_, ?_⟩
      · intro n h bh
        simp only [finalizeBlock]
        repeat' split
        all_goals first
          | exact ⟨rfl, rfl, rfl, rfl, rfl, rfl, rfl, fun x hx => hx, fun x hx => hx⟩
          | (refine preserves_trans ?_ (ihT _)
             exact ⟨rfl, rfl, rfl, rfl, rfl, rfl, rfl, fun x hx => hx, fun x hx => hx⟩)
      · intro n
        simp only [tryFinalizeNext]
        repeat' split
        all_goals first
          | exact ⟨rfl, rfl, rfl, rfl, rfl, rfl, rfl, fun x hx => hx, fun x hx => hx⟩
          | exact ihS _ _ _
      · intro n nh entries
        simp only [scanPrecommits]
        repeat' split
        all_goals first
          | exact ⟨rfl, rfl, rfl, rfl, rfl, rfl, rfl, fun x hx => hx, fun x hx => hx⟩
          | exact ihF _ _ _
          | exact ihS _ _ _
      · intro n b
        simp only [sendPrevote]
        repeat' split
        all_goals first
          | exact ⟨rfl, rfl, rfl, rfl, rfl, rfl, rfl, fun x hx => hx, fun x hx => hx⟩
          | (refine preserves_trans ?_ (ihHPv _ _)
             exact ⟨rfl, rfl, rfl, rfl, rfl, rfl, rfl,
               fun x hx => List.mem_append_left _ hx, fun x hx => hx⟩)
      · intro n h bh
        simp only [sendPrecommit]
        repeat' split
        all_goals first
          | exact ⟨rfl, rfl, rfl, rfl, rfl, rfl, rfl, fun x hx => hx, fun x hx => hx⟩
          | (refine preserves_trans ?_ (ihHPc _ _)
             exact ⟨rfl, rfl, rfl, rfl, rfl, rfl, rfl,
               fun x hx => hx, fun x hx => List.mem_append_left _ hx⟩)
      · intro n vm
        have hbook : Preserves n { n with
            prevotes := addVoter n.prevotes vm.data.height vm.data.blockHash vm.data.voter } :=
          ⟨rfl, rfl, rfl, rfl, rfl, rfl, rfl, fun x hx => hx, fun x hx => hx⟩
        simp only [handlePrevote]
        repeat' split
        all_goals first
          | exact ⟨rfl, rfl, rfl, rfl, rfl, rfl, rfl, fun x hx => hx, fun x hx => hx⟩
          | exact preserves_trans hbook (ihSPc _ vm.data.height vm.data.blockHash)
          | exact preserves_trans hbook (ihSPv _ _)
          | exact preserves_trans
              (preserves_trans hbook (ihSPc _ vm.data.height vm.data.blockHash)) (ihSPv _ _)
      · intro n vm
        have hbook : Preserves n { n with
            precommits := addVoter n.precommits vm.data.height vm.data.blockHash vm.data.voter } :=
          ⟨rfl, rfl, rfl, rfl, rfl, rfl, rfl, fun x hx => hx, fun x hx => hx⟩
        simp only [handlePrecommit]
        repeat' split
        all_goals first
          | exact ⟨rfl, rfl, rfl, rfl, rfl, rfl, rfl, fun x hx => hx, fun x hx => hx⟩
          | exact preserves_trans hbook (ihF _ _ _)
      · intro n b
        simp only [handleBlockHeader]
        repeat' split
        all_goals first
          | exact ⟨rfl, rfl, rfl, rfl, rfl, rfl, rfl, fun x hx => hx, fun x hx => hx⟩
          | (refine preserves_trans ?_ (ihSPv _ _)
             exact ⟨rfl, rfl, rfl, rfl, rfl, rfl, rfl, fun x hx => hx, fun x hx => hx⟩)
      · intro now n
        simp only [trySync]
        repeat' split
        all_goals first
          | exact ⟨rfl, rfl, rfl, rfl, rfl, rfl, rfl, fun x hx => hx, fun x hx => hx⟩
          | (refine preserves_trans ?_ (ihF _ _ _)
             exact ⟨rfl, rfl, rfl, rfl, rfl, rfl, rfl, fun x hx => hx, fun x hx => hx⟩)
          | (refine preserves_trans ?_ (ihSPv _ _)
             exact ⟨rfl, rfl, rfl, rfl, rfl, rfl, rfl, fun x hx => hx, fun x hx => hx⟩)

theorem strLeB_trans {a b c : String} (h1 : strLeB a b = true) (h2 : strLeB b c = true) :
    strLeB a c = true := by
  unfold strLeB at h1 h2 ⊢
  simp only [Bool.not_eq_true'] at h1 h2 ⊢
  cases hca : strLtB c a
  · rfl
  · exfalso
    cases hab : strLtB a b
    · have hab' : a = b := str_eq_of_not_ltB hab h1
      rw [hab'] at hca
      rw [hca] at h2
      exact Bool.noConfusion h2
    · have := strLtB_trans hca hab
      rw [this] at h2
      exact Bool.noConfusion h2

theorem strLeB_total (a b : String) : strLeB a b = true ∨ strLeB b a = true := by
  unfold strLeB
  cases h : strLtB b a
  · left
    simp
  · right
    simp [strLtB_asymm h]

theorem pairLe_total : ∀ a b : String × String, pairLe a b ∨ pairLe b a := by
  intro a b
  unfold pairLe
  cases hab : strLtB a.1 b.1
  · cases hba : strLtB b.1 a.1
    · have he : a.1 = b.1 := str_eq_of_not_ltB hab hba
      rcases strLeB_total a.2 b.2 with hv | hv
      · left
        simp [he, hv]
      · right
        simp [he, hv]
    · right
      simp [hba]
  · left
    simp [hab]

theorem pairLe_trans : ∀ a b c : String × String, pairLe a b → pairLe b c → pairLe a c := by
  intro a b c h1 h2
  unfold pairLe at h1 h2 ⊢
  simp only [Bool.or_eq_true, Bool.and_eq_true, beq_iff_eq] at h1 h2 ⊢
  rcases h1 with h1 | ⟨h1e, h1v⟩
  · rcases h2 with h2 | ⟨h2e, _⟩
    · exact Or.inl (strLtB_trans h1 h2)
    · exact Or.inl (h2e ▸ h1)
  · rcases h2 with h2 | ⟨h2e, h2v⟩
    · exact Or.inl (h1e ▸ h2)
    · exact Or.inr ⟨h1e.trans h2e, strLeB_trans h1v h2v⟩

theorem sorted_insertionSort_pairLe (l : List (String × String)) :
    (l.insertionSort pairLe).Sorted pairLe := by
  haveI : IsTotal (String × String) pairLe := ⟨pairLe_total⟩
  haveI : IsTrans (String × String) pairLe := ⟨pairLe_trans⟩
  exact List.sorted_insertionSort pairLe l

theorem keyLt_of_pairLe_of_ne {a b : String × String} (h : pairLe a b) (hne : a.1 ≠ b.1) :
    keyLt a b := by
  unfold pairLe at h
  unfold keyLt
  simp only [Bool.or_eq_true, Bool.and_eq_true, beq_iff_eq] at h
  rcases h with h | ⟨he, _⟩
  · exact h
  · exact absurd he hne

theorem sorted_keyLt_of_sorted_pairLe {l : List (String × String)}
    (hs : l.Sorted pairLe) (hnd : (l.map Prod.fst).Nodup) : l.Sorted keyLt := by
  have hnd' : l.Pairwise fun a b => a.1 ≠ b.1 := by
    rw [List.Nodup, List.pairwise_map] at hnd
    exact hnd
  exact (hs.and hnd').imp fun h => keyLt_of_pairLe_of_ne h.1 h.2

/-- `sorted(d.items())` is insensitive to insertion order: two item lists
with the same distinct keys and the same bindings sort identically. -/
theorem sortedItems_eq_of_perm {l₁ l₂ : List (String × String)}
    (hperm : l₁.Perm l₂) (hnd : (l₁.map Prod.fst).Nodup) :
    sortedItems l₁ = sortedItems l₂ := by
  unfold sortedItems
  have hs₁ := sorted_insertionSort_pairLe l₁
  have hs₂ := sorted_insertionSort_pairLe l₂
  have hp₁ : (l₁.insertionSort pairLe).Perm l₁ := List.perm_insertionSort pairLe l₁
  have hp₂ : (l₂.insertionSort pairLe).Perm l₂ := List.perm_insertionSort pairLe l₂
  have hnd₂ : (l₂.map Prod.fst).Nodup := (hperm.map Prod.fst).nodup_iff.mp hnd
  have hnd₁' : ((l₁.insertionSort pairLe).map Prod.fst).Nodup :=
    (hp₁.map Prod.fst).nodup_iff.mpr hnd
  have hnd₂' : ((l₂.insertionSort pairLe).map Prod.fst).Nodup :=
    (hp₂.map Prod.fst).nodup_iff.mpr hnd₂
  exact eq_of_perm_of_sorted_keyLt (hp₁.trans (hperm.trans hp₂.symm))
    (sorted_keyLt_of_sorted_pairLe hs₁ hnd₁')
    (sorted_keyLt_of_sorted_pairLe hs₂ hnd₂')

/-! ### Association-list membership -/

theorem mem_iff_aGet {β : Type} : ∀ {l : List (String × β)},
    (l.map Prod.fst).Nodup → ∀ {k : String} {v : β}, ((k, v) ∈ l ↔ aGet k l = some v) := by
  intro l
  induction l with
  | nil =>
      intro _ k v
      simp [aGet]
  | cons p rest ih =>
      intro hnd k v
      rw [List.map_cons, List.nodup_cons] at hnd
      constructor
      · intro hm
        rcases List.mem_cons.mp hm with hm | hm
        · rw [← hm]
          simp [aGet]
        · have hk : p.1 ≠ k := by
            intro hkk
            exact hnd.1 (hkk ▸ (List.mem_map.mpr ⟨(k, v), hm, rfl⟩))
          simp only [aGet, if_neg hk]
          exact (ih hnd.2).mp hm
      · intro hg
        simp only [aGet] at hg
        by_cases hk : p.1 = k
        · rw [if_pos hk] at hg
          obtain ⟨hp1, hp2⟩ := p
          obtain rfl := hk
          obtain rfl := Option.some.inj hg
          exact List.mem_cons_self _ _
        · rw [if_neg hk] at hg
          exact List.mem_cons_of_mem _ ((ih hnd.2).mpr hg)

theorem perm_of_aGet_eq {β : Type} {l₁ l₂ : List (String × β)}
    (h₁ : (l₁.map Prod.fst).Nodup) (h₂ : (l₂.map Prod.fst).Nodup)
    (h : ∀ k, aGet k l₁ = aGet k l₂) : l₁.Perm l₂ := by
  rw [List.perm_ext_iff_of_nodup (h₁.of_map Prod.fst) (h₂.of_map Prod.fst)]
  intro a
  obtain ⟨k, v⟩ := a
  rw [mem_iff_aGet h₁, mem_iff_aGet h₂, h k]

/-! ### Ledger chaining -/

theorem getLast?_cons_some {α : Type} (x : α) :
    ∀ xs : List α, (x :: xs).getLast? = some ((xs.getLast?).getD x)
  | [] => rfl
  | y :: ys => by
      rw [List.getLast?_cons_cons, getLast?_cons_some y ys]
      rfl

theorem chainedAfter_append (b : Block) : ∀ (l : List Block) (prev : Block),
    chainedAfter prev l = true →
    b.parentHash = ((l.getLast?).getD prev).hash →
    chainedAfter prev (l ++ [b]) = true
  | [], prev, _, hb => by
      simp only [List.nil_append, chainedAfter, Bool.and_eq_true, beq_iff_eq]
      exact ⟨hb, trivial⟩
  | x :: xs, prev, h, hb => by
      simp only [chainedAfter, Bool.and_eq_true, List.cons_append] at h ⊢
      refine ⟨h.1, chainedAfter_append b xs x h.2 ?_⟩
      rw [getLast?_cons_some x xs] at hb
      exact hb

theorem chainOk_append {l : List Block} {b : Block} (h : chainOk l = true)
    (hgen : l = [] → b.parentHash = "genesis")
    (hlast : ∀ lastB, l.getLast? = some lastB → b.parentHash = lastB.hash) :
    chainOk (l ++ [b]) = true := by
  cases l with
  | nil =>
      simp only [List.nil_append, chainOk, chainedAfter, Bool.and_eq_true, beq_iff_eq]
      exact ⟨hgen rfl, trivial⟩
  | cons x xs =>
      simp only [chainOk, Bool.and_eq_true, List.cons_append] at h ⊢
      refine ⟨h.1, chainedAfter_append b xs x h.2 ?_⟩
      exact hlast _ (getLast?_cons_some x xs)

/-! ### The finalize apply-loop -/

theorem applyTxsLive_fail : ∀ (txs : List Transaction) (st : State),
    (applyTxsLive st txs).2 = false →
    ∃ pre t post, txs = pre ++ t :: post ∧ (applyTxsLive st pre).2 = true ∧
      (applyTxsLive st pre).1 = (applyTxsLive st txs).1 ∧
      State.applyTransaction (applyTxsLive st pre).1 t = none
  | [], st, h => by simp [applyTxsLive] at h
  | t :: ts, st, h => by
      simp only [applyTxsLive] at h
      cases hap : st.applyTransaction t with
      | none =>
          refine ⟨[], t, ts, rfl, rfl, ?_, ?_⟩
          · simp [applyTxsLive, hap]
          · simpa [applyTxsLive] using hap
      | some st' =>
          rw [hap] at h
          obtain ⟨pre, u, post, he, h1, h2, h3⟩ := applyTxsLive_fail ts st' h
          refine ⟨t :: pre, u, post, by rw [he, List.cons_append], ?_, ?_, ?_⟩
          · simpa [applyTxsLive, hap] using h1
          · simpa [applyTxsLive, hap] using h2
          · simpa [applyTxsLive, hap] using h3

/-! ### Facts extracted from a successful block validation -/

theorem validateBlock_height {n : Node} {b : Block} (h : validateBlock n b = true) :
    b.height = n.currentHeight + 1 := by
  unfold validateBlock at h
  by_cases hh : b.height = n.currentHeight + 1
  · exact hh
  · rw [if_pos hh] at h
    exact Bool.noConfusion h

theorem validateBlock_parent {n : Node} {b : Block} (h : validateBlock n b = true) :
    (∀ lastB, n.ledger.getLast? = some lastB → b.parentHash = lastB.hash) ∧
    (n.ledger = [] → b.height = 1 → b.parentHash = "genesis") := by
  unfold validateBlock at h
  by_cases hh : b.height = n.currentHeight + 1
  · rw [if_neg (by simpa using hh)] at h
    constructor
    · intro lastB hlast
      rw [hlast] at h
      by_cases hp : b.parentHash == lastB.hash
      · exact beq_iff_eq.mp hp
      · simp only [hp, Bool.not_false, if_pos] at h
        exact Bool.noConfusion h
    · intro hnil hb1
      by_cases hp : b.parentHash = "genesis"
      · exact hp
      · exfalso
        rw [hnil, hb1] at h
        simp [bne_iff_ne, hp] at h
  · rw [if_pos hh] at h
    exact Bool.noConfusion h

/-! ### Claim theorems -/

/-- C4 counterexample: the bytes `Signer._create_message` builds are NOT the
domain-prefixed canonical JSON (minimal separators) of the payload — for a
concrete transaction dict the two encodings differ (`json.dumps` is called
with its default separators `", "`/`": "` in the signing path). -/
theorem signing_encoding_not_canonical :
    signerMessage "mainnet" domainTX txValidDict ≠
      domainTX ++ ":" ++ "mainnet" ++ ":" ++ canonicalJson txValidDict := by decide

/-- C4 amended: the signed and verified bytes are exactly the UTF-8 string
`"DOMAIN:chain_id:j(data)"` where `j` is `json.dumps(data, sort_keys=True)`
with Python's DEFAULT separators `", "` and `": "` — object keys are still
sorted (so the encoding is insertion-order insensitive), but it is not the
minimal-separator encoding `hash_data` feeds to SHA-256. -/
theorem signing_encoding_default_separators :
    (∀ chainId domain : String, ∀ d : JVal,
        signerMessage chainId domain d =
          domain ++ ":" ++ chainId ++ ":" ++ defaultJson d) ∧
    (∀ d : JVal, hashData d = sha256hex (canonicalJson d)) ∧
    (∀ chainId domain : String, ∀ l₁ l₂ : List (String × JScalar),
        (l₁.map Prod.fst).Nodup → l₁.Perm l₂ →
        signerMessage chainId domain (.obj l₁) = signerMessage chainId domain (.obj l₂)) := by
  refine ⟨fun _ _ _ => rfl, fun _ => rfl, ?_⟩
  intro chainId domain l₁ l₂ hnd hperm
  simp only [signerMessage, defaultJson, dumpVal]
  rw [insertionSort_keyLe_eq_of_perm hperm hnd]

theorem signing_encoding_default_separators_witness :
    signerMessage "mainnet" domainTX (.obj [("b", .s "2"), ("a", .s "1")]) =
      signerMessage "mainnet" domainTX (.obj [("a", .s "1"), ("b", .s "2")]) :=
  signing_encoding_default_separators.2.2 "mainnet" domainTX
    [("b", .s "2"), ("a", .s "1")] [("a", .s "1"), ("b", .s "2")]
    (by decide) (by decide)

/-- C5 (code bug): `State.apply_transaction` verifies against the hard
default chain id `"mainnet"`, not a configured one (the class stores no
chain id although `Node.__init__` and the tests pass one): a transaction
that verifies for its intended chain `"test"` is rejected, while a
`"mainnet"`-signed one is applied. -/
theorem state_apply_ignores_chain_id :
    txTest.verify "test" = true ∧
    txTest.verify "mainnet" = false ∧
    State.applyTransaction ⟨[]⟩ txTest = none ∧
    State.applyTransaction ⟨[]⟩ txValid = some ⟨[("alice/x", "1")]⟩ := by decide

/-- C6: a block's hash is `hash_data` of exactly
`{height, parent_hash, tx_count, state_hash}`; two blocks agreeing on those
four fields share a hash whatever their transactions or proposer
signatures. -/
theorem block_hash_fields_only (b₁ b₂ : Block)
    (hh : b₁.height = b₂.height) (hp : b₁.parentHash = b₂.parentHash)
    (ht : b₁.transactions.length = b₂.transactions.length)
    (hs : b₁.stateHash = b₂.stateHash) :
    b₁.hash = hashData (.obj
      [("height", .n b₁.height), ("parent_hash", .s b₁.parentHash),
       ("tx_count", .n b₁.transactions.length), ("state_hash", .s b₁.stateHash)]) ∧
    b₁.hash = b₂.hash := by
  constructor
  · rfl
  · unfold Block.hash Block.computeHash
    rw [hh, hp, ht, hs]

theorem block_hash_fields_only_witness :
    blockW1.transactions ≠ blockW2.transactions ∧
    blockW1.proposerSignature ≠ blockW2.proposerSignature ∧
    blockW1.hash = blockW2.hash :=
  ⟨by decide, by decide,
   (block_hash_fields_only blockW1 blockW2 rfl rfl (by decide) rfl).2⟩

/-- C7: a prevote or precommit whose claimed voter id is outside the node's
validator set leaves the node's state completely unchanged — whether or not
its signature verifies, nothing is booked. -/
theorem nonvalidator_votes_ignored (fuel : Nat) (n : Node) (vm : VoteMsg)
    (hv : vm.data.voter ∉ n.validators) :
    handlePrevote (fuel + 1) n vm = n ∧ handlePrecommit (fuel + 1) n vm = n := by
  constructor
  · simp only [handlePrevote]
    split_ifs <;> rfl
  · simp only [handlePrecommit]
    split_ifs <;> rfl

theorem nonvalidator_votes_ignored_witness :
    ("Z" ∉ n3Node.validators) ∧
    handlePrevote 1 n3Node (mkPrevote 1 "bh" "Z") = n3Node ∧
    handlePrecommit 1 n3Node (mkPrecommitVm 1 "bh" "Z") = n3Node :=
  ⟨by decide,
   (nonvalidator_votes_ignored 0 n3Node (mkPrevote 1 "bh" "Z") (by decide)).1,
   (nonvalidator_votes_ignored 0 n3Node (mkPrecommitVm 1 "bh" "Z") (by decide)).2⟩

/-- C9: `commitment()` and `hash_data` are insensitive to map insertion
order: states equal as key/value functions share a commitment, and
permuted dicts share a `hash_data` digest. -/
theorem hash_insertion_order_invariance :
    (∀ s₁ s₂ : State, (s₁.data.map Prod.fst).Nodup → (s₂.data.map Prod.fst).Nodup →
      (∀ k, s₁.get k = s₂.get k) → s₁.commitment = s₂.commitment) ∧
    (∀ l₁ l₂ : List (String × JScalar), (l₁.map Prod.fst).Nodup → l₁.Perm l₂ →
      hashData (.obj l₁) = hashData (.obj l₂)) := by
  constructor
  · intro s₁ s₂ h₁ h₂ hget
    have hperm : s₁.data.Perm s₂.data := perm_of_aGet_eq h₁ h₂ hget
    unfold State.commitment hashState
    rw [sortedItems_eq_of_perm hperm h₁]
  · intro l₁ l₂ hnd hperm
    simp only [hashData, canonicalJson, dumpVal]
    rw [insertionSort_keyLe_eq_of_perm hperm hnd]

theorem hash_insertion_order_invariance_witness :
    (State.mk [("a", "1"), ("b", "2")]).commitment =
      (State.mk [("b", "2"), ("a", "1")]).commitment ∧
    hashData (.obj [("a", .s "1"), ("b", .s "2")]) =
      hashData (.obj [("b", .s "2"), ("a", .s "1")]) := by
  constructor
  · refine hash_insertion_order_invariance.1 ⟨[("a", "1"), ("b", "2")]⟩
      ⟨[("b", "2"), ("a", "1")]⟩ (by decide) (by decide) ?_
    intro k
    by_cases h1 : "a" = k
    · by_cases h2 : "b" = k
      · exact absurd (h1.trans h2.symm) (by decide)
      · simp [State.get, aGet, h1, h2]
    · by_cases h2 : "b" = k
      · simp [State.get, aGet, h1, h2]
      · simp [State.get, aGet, h1, h2]
  · exact hash_insertion_order_invariance.2 _ _ (by decide) (by decide)

/-- C1 counterexample: delivering one more forged precommit to `victim5`
finalizes the buffered block `blockB2` even though that block FAILS
validation at that moment (its parent hash matches nothing): the
precommit-majority path of `_handle_precommit` calls `_finalize_block`
without re-validating. -/
theorem precommit_finalize_skips_validation :
    victimFinal = receiveMessage 10 0 victim5 (forgedPrecommit 2 blockB2.hash "B" "m6") ∧
    validateBlock victim5 blockB2 = false ∧
    victimFinal.ledger = victim5.ledger ++ [blockB2] ∧
    victimFinal.currentHeight = 2 := by
  refine ⟨by decide, by decide, by decide, by decide⟩

/-- C2 counterexample: in a reachable execution (six adversarial messages
delivered to a freshly initialised non-validator), the ledger ends up
violating the chaining invariant: `ledger[1].parent_hash = "evil"` differs
from `ledger[0].hash`. -/
theorem adversarial_chain_break :
    chainOk victimFinal.ledger = false ∧
    victimFinal.ledger.length = 2 ∧
    (victimFinal.ledger.get? 1).map Block.parentHash = some "evil" ∧
    (victimFinal.ledger.get? 1).map Block.parentHash ≠
      (victimFinal.ledger.get? 0).map Block.hash := by decide

/-- C1 amended: whenever `_finalize_block` changes the ledger or the height,
the guards that actually hold are: the height is `current_height + 1`, the
pending block at that height has the given hash, and all its transactions
apply to live state.  Full block validation (parent link, state-hash
recomputation) is NOT among the conditions. -/
theorem finalize_guards_only (fuel : Nat) (n : Node) (h : Nat) (bh : String)
    (hch : (finalizeBlock fuel n h bh).ledger ≠ n.ledger ∨
           (finalizeBlock fuel n h bh).currentHeight ≠ n.currentHeight) :
    h = n.currentHeight + 1 ∧
    ∃ b, aGet h n.pendingBlocks = some b ∧ b.hash = bh ∧
      (applyTxsLive n.state b.transactions).2 = true := by
  cases fuel with
  | zero =>
      rcases hch with hc | hc <;> exact absurd rfl hc
  | succ fuel =>
      simp only [finalizeBlock] at hch
      split at hch
      · rcases hch with hc | hc <;> exact absurd rfl hc
      · split at hch
        · rcases hch with hc | hc <;> exact absurd rfl hc
        · rename_i h1 h2
          split at hch
          · rcases hch with hc | hc <;> exact absurd rfl hc
          · rename_i b hpb
            split at hch
            · rcases hch with hc | hc <;> exact absurd rfl hc
            · rename_i h3
              split at hch
              · rcases hch with hc | hc <;> exact absurd rfl hc
              · rename_i st0 hfl
                exact ⟨not_ne_iff.mp h1, b, hpb, not_ne_iff.mp h3, by rw [hfl]⟩

theorem finalize_guards_only_witness :
    (finalizeBlock 1 hvNode 1 blockB1.hash).ledger ≠ hvNode.ledger ∧
    (1 = hvNode.currentHeight + 1 ∧
      ∃ b, aGet 1 hvNode.pendingBlocks = some b ∧ b.hash = blockB1.hash ∧
        (applyTxsLive hvNode.state b.transactions).2 = true) :=
  ⟨by decide, finalize_guards_only 1 hvNode 1 blockB1.hash (Or.inl (by decide))⟩

/-- C10: when a transaction of the block fails to apply during
finalization, the ledger and `current_height` are untouched (so
`current_height == |ledger|` survives), but the live state keeps the writes
of the transactions applied before the failure — finalization is not atomic
on the key/value store. -/
theorem finalize_partial_apply (fuel : Nat) (n : Node) (h : Nat) (bh : String) (b : Block)
    (hh : h = n.currentHeight + 1) (hpb : aGet h n.pendingBlocks = some b)
    (hbh : b.hash = bh) (hfail : (applyTxsLive n.state b.transactions).2 = false) :
    (finalizeBlock (fuel + 1) n h bh).ledger = n.ledger ∧
    (finalizeBlock (fuel + 1) n h bh).currentHeight = n.currentHeight ∧
    (finalizeBlock (fuel + 1) n h bh).state = (applyTxsLive n.state b.transactions).1 ∧
    (n.currentHeight = n.ledger.length →
      (finalizeBlock (fuel + 1) n h bh).currentHeight =
        (finalizeBlock (fuel + 1) n h bh).ledger.length) ∧
    ∃ pre t post, b.transactions = pre ++ t :: post ∧
      (applyTxsLive n.state pre).2 = true ∧
      (applyTxsLive n.state pre).1 = (applyTxsLive n.state b.transactions).1 ∧
      State.applyTransaction (applyTxsLive n.state pre).1 t = none := by
  have hres : finalizeBlock (fuel + 1) n h bh =
      { n with state := (applyTxsLive n.state b.transactions).1 } := by
    rcases hfl : applyTxsLive n.state b.transactions with ⟨st0, flag⟩
    have hflag : flag = false := by
      have hx := hfail
      rw [hfl] at hx
      exact hx
    subst hflag
    simp only [finalizeBlock]
    rw [if_neg (by omega), if_neg (by omega)]
    simp only [hpb]
    rw [if_neg (not_ne_iff.mpr hbh)]
    simp only [hfl]
  rw [hres]
  refine ⟨rfl, rfl, rfl, fun hl => hl, ?_⟩
  exact applyTxsLive_fail b.transactions n.state hfail

theorem finalize_partial_apply_witness :
    (applyTxsLive cwNode.state blockPartial.transactions).2 = false ∧
    (finalizeBlock 1 cwNode 1 blockPartial.hash).ledger = cwNode.ledger ∧
    (finalizeBlock 1 cwNode 1 blockPartial.hash).currentHeight = cwNode.currentHeight ∧
    (finalizeBlock 1 cwNode 1 blockPartial.hash).state.get "alice/x" = some "1" := by
  have h := finalize_partial_apply 0 cwNode 1 blockPartial.hash blockPartial
    (by decide) (by decide) rfl (by decide)
  exact ⟨by decide, h.1, h.2.1, by decide⟩

/-- The invariant (well-chained ledger, `current_height = |ledger|`) is
preserved by any finalization whose target block validates, and by the
catch-up cascade (which validates internally before each finalize). -/
theorem finalize_preserves_inv : ∀ fuel : Nat,
    (∀ n h bh, LedgerInv n →
      (∀ b, aGet h n.pendingBlocks = some b → b.hash = bh → validateBlock n b = true) →
      LedgerInv (finalizeBlock fuel n h bh)) ∧
    (∀ n, LedgerInv n → LedgerInv (tryFinalizeNext fuel n)) ∧
    (∀ n entries, LedgerInv n →
      LedgerInv (scanPrecommits fuel n (n.currentHeight + 1) entries)) := by
  intro fuel
  induction fuel with
  | zero => exact ⟨fun n _ _ hInv _ => hInv, fun n hInv => hInv, fun n _ hInv => hInv⟩
  | succ fuel ih =>
      obtain ⟨ihF, ihT, ihS⟩ := ih
      refine ⟨?_, ?_, ?_⟩
      · intro n h bh hInv hval
        simp only [finalizeBlock]
        split
        · exact hInv
        · split
          · exact hInv
          · rename_i h1 h2
            split
            · exact hInv
            · rename_i b hpb
              split
              · exact hInv
              · rename_i h3
                split
                · exact hInv
                · rename_i st0 hfl
                  have hb : validateBlock n b = true := hval b hpb (not_ne_iff.mp h3)
                  have hbH : b.height = n.currentHeight + 1 := validateBlock_height hb
                  obtain ⟨hlast, hgen⟩ := validateBlock_parent hb
                  have hchain : chainOk (n.ledger ++ [b]) = true := by
                    refine chainOk_append hInv.1 ?_ hlast
                    intro hnil
                    refine hgen hnil ?_
                    have hc0 : n.currentHeight = 0 := by
                      rw [hInv.2, hnil]
                      rfl
                    omega
                  refine ihT _ ⟨hchain, ?_⟩
                  show h = (n.ledger ++ [b]).length
                  have hh' : h = n.currentHeight + 1 := not_ne_iff.mp h1
                  have hl := hInv.2
                  simp only [List.length_append, List.length_cons, List.length_nil]
                  omega
      · intro n hInv
        simp only [tryFinalizeNext]
        split
        · exact hInv
        · split
          · exact hInv
          · exact ihS _ _ hInv
      · intro n entries hInv
        simp only [scanPrecommits]
        split
        · exact hInv
        · split
          · split
            · split
              · split
                · rename_i hmaj b hpb hhash hvd
                  refine ihF _ _ _ hInv ?_
                  intro b' hb' _
                  rw [hpb] at hb'
                  obtain rfl := Option.some.inj hb'
                  exact hvd
                · exact ihS _ _ hInv
              · exact ihS _ _ hInv
            · exact ihS _ _ hInv
          · exact ihS _ _ hInv

/-- C2 amended: the ledger-chaining invariant
(`ledger[0].parent_hash == "genesis"`, `ledger[i].parent_hash ==
ledger[i-1].hash`) together with `current_height == |ledger|` is preserved
by finalization whenever the finalized pending block still validates; the
unconditional claim fails because the precommit-majority path finalizes
without validating (see `adversarial_chain_break`). -/
theorem validated_finalize_preserves_chain (fuel : Nat) (n : Node) (h : Nat) (bh : String)
    (h1 : chainOk n.ledger = true) (h2 : n.currentHeight = n.ledger.length)
    (h3 : ∀ b, aGet h n.pendingBlocks = some b → b.hash = bh → validateBlock n b = true) :
    chainOk (finalizeBlock fuel n h bh).ledger = true ∧
    (finalizeBlock fuel n h bh).currentHeight = (finalizeBlock fuel n h bh).ledger.length :=
  (finalize_preserves_inv fuel).1 n h bh ⟨h1, h2⟩ h3

theorem validated_finalize_preserves_chain_witness :
    (finalizeBlock 3 hvNode 1 blockB1.hash).ledger.length = 1 ∧
    (chainOk (finalizeBlock 3 hvNode 1 blockB1.hash).ledger = true ∧
      (finalizeBlock 3 hvNode 1 blockB1.hash).currentHeight =
        (finalizeBlock 3 hvNode 1 blockB1.hash).ledger.length) := by
  refine ⟨by decide, validated_finalize_preserves_chain 3 hvNode 1 blockB1.hash
    (by decide) (by decide) ?_⟩
  intro b hb hh
  have hb' : blockB1 = b := Option.some.inj (by
    have hx : aGet 1 hvNode.pendingBlocks = some blockB1 := by decide
    rw [← hx, hb])
  rw [← hb']
  decide

/-- C8: a message whose `msg_id` was already seen leaves the node fully
unchanged, and delivering the same valid transaction message twice grows
`pending_transactions` by exactly one (the transaction itself). -/
theorem dedupe_semantics :
    (∀ fuel : Nat, ∀ now : Int, ∀ n : Node, ∀ m : Message,
        m.msgId ∈ n.seenMessages → receiveMessage fuel now n m = n) ∧
    (∀ fuel : Nat, ∀ now now' : Int, ∀ n : Node, ∀ m : Message, ∀ t : Transaction,
        m.msgType = MessageType.transaction → m.payload = Payload.tx t →
        m.msgId ∉ n.seenMessages → t.verify n.chainId = true →
        (receiveMessage fuel now' (receiveMessage fuel now n m) m).pendingTransactions =
          n.pendingTransactions ++ [t]) := by
  constructor
  · intro fuel now n m hseen
    unfold receiveMessage
    rw [if_pos hseen]
  · intro fuel now now' n m t hty hpl hseen hver
    obtain ⟨mt, ms, mp, mid⟩ := m
    have hty' : mt = MessageType.transaction := hty
    have hpl' : mp = Payload.tx t := hpl
    subst hty'
    subst hpl'
    have hseen' : mid ∉ n.seenMessages := hseen
    obtain ⟨hid, hvl, hchain, hpk, hpend, hseenEq, hvals, hm1, hm2⟩ :=
      (cluster_preserves fuel).2.2.2.2.2.2.2.2 now
        { n with seenMessages := n.seenMessages ++ [mid] }
    have hch2 : (trySync fuel now { n with seenMessages := n.seenMessages ++ [mid] }).chainId
        = n.chainId := hchain
    have hpend2 : (trySync fuel now
        { n with seenMessages := n.seenMessages ++ [mid] }).pendingTransactions
        = n.pendingTransactions := hpend
    have hseen2 : (trySync fuel now
        { n with seenMessages := n.seenMessages ++ [mid] }).seenMessages
        = n.seenMessages ++ [mid] := hseenEq
    have h1 : receiveMessage fuel now n ⟨MessageType.transaction, ms, Payload.tx t, mid⟩ =
        handleTransaction
          (trySync fuel now { n with seenMessages := n.seenMessages ++ [mid] })
          (Payload.tx t) := by
      simp only [receiveMessage, if_neg hseen']
    have hver2 : t.verify (trySync fuel now
        { n with seenMessages := n.seenMessages ++ [mid] }).chainId = true := by
      rw [hch2]
      exact hver
    have h2 : (handleTransaction
        (trySync fuel now { n with seenMessages := n.seenMessages ++ [mid] })
        (Payload.tx t)).pendingTransactions = n.pendingTransactions ++ [t] := by
      simp only [handleTransaction, hver2, if_true]
      rw [hpend2]
    have hseen1 : mid ∈ (handleTransaction
        (trySync fuel now { n with seenMessages := n.seenMessages ++ [mid] })
        (Payload.tx t)).seenMessages := by
      simp only [handleTransaction, hver2, if_true]
      rw [hseen2]
      exact List.mem_append_right _ (by simp)
    rw [h1]
    have hdup : receiveMessage fuel now' (handleTransaction
        (trySync fuel now { n with seenMessages := n.seenMessages ++ [mid] })
        (Payload.tx t)) ⟨MessageType.transaction, ms, Payload.tx t, mid⟩ =
        handleTransaction
          (trySync fuel now { n with seenMessages := n.seenMessages ++ [mid] })
          (Payload.tx t) := by
      unfold receiveMessage
      rw [if_pos hseen1]
    rw [hdup]
    exact h2

theorem dedupe_semantics_witness :
    receiveMessage 5 0 { victim0 with seenMessages := ["t1"] } mTx =
      { victim0 with seenMessages := ["t1"] } ∧
    (receiveMessage 5 7 (receiveMessage 5 0 victim0 mTx) mTx).pendingTransactions =
      victim0.pendingTransactions ++ [txValid] :=
  ⟨dedupe_semantics.1 5 0 { victim0 with seenMessages := ["t1"] } mTx (by decide),
   dedupe_semantics.2 5 0 7 victim0 mTx txValid rfl rfl (by decide) (by decide)⟩

theorem sentPrecommits_mono_handlePrecommit (fuel : Nat) (m : Node) (vm : VoteMsg)
    {x : Nat × String} (hx : x ∈ m.sentPrecommits) :
    x ∈ (handlePrecommit fuel m vm).sentPrecommits :=
  ((cluster_preserves fuel).2.2.2.2.2.2.1 m vm).2.2.2.2.2.2.2.2 x hx

theorem sentPrecommits_mono_sendPrevote (fuel : Nat) (m : Node) (b : Block)
    {x : Nat × String} (hx : x ∈ m.sentPrecommits) :
    x ∈ (sendPrevote fuel m b).sentPrecommits :=
  ((cluster_preserves fuel).2.2.2.1 m b).2.2.2.2.2.2.2.2 x hx

/-- C3: the majority predicate everywhere is the strict simple majority
`count > |validators| / 2` over the DISTINCT recorded voter ids.  For the
vote collector this is proved as an equivalence with the source's rational
comparison; for the node, a newly recorded prevote triggers a precommit
send exactly on majority (for a validator), a newly recorded precommit
triggers the finalization attempt exactly on majority, and at or below
half of the validators nothing beyond the vote book changes. -/
theorem strict_majority_semantics :
    (∀ vc : VoteCollector, ∀ h : Nat, ∀ bh : String,
        (vc.hasPrevoteMajority h bh = true ↔
          majorityQ vc.totalValidators (vc.getPrevoteCount h bh)) ∧
        (vc.hasPrecommitMajority h bh = true ↔
          majorityQ vc.totalValidators (vc.getPrecommitCount h bh))) ∧
    (∀ fuel : Nat, ∀ n : Node, ∀ vm : VoteMsg,
        verifyVoteSig n.chainId vm.publicKey vm.data.toJ vm.signature = true →
        n.currentHeight + 1 ≤ vm.data.height →
        vm.data.voter ∈ n.validators →
        ((¬ majorityQ n.validators.length
            (voterCount (addVoter n.prevotes vm.data.height vm.data.blockHash vm.data.voter)
              vm.data.height vm.data.blockHash) →
          handlePrevote (fuel + 1) n vm =
            { n with prevotes :=
                addVoter n.prevotes vm.data.height vm.data.blockHash vm.data.voter }) ∧
         (majorityQ n.validators.length
            (voterCount (addVoter n.prevotes vm.data.height vm.data.blockHash vm.data.voter)
              vm.data.height vm.data.blockHash) →
          n.isValidator = true →
          (vm.data.height, vm.data.blockHash) ∈
            (handlePrevote (fuel + 2) n vm).sentPrecommits))) ∧
    (∀ fuel : Nat, ∀ n : Node, ∀ vm : VoteMsg,
        verifyVoteSig n.chainId vm.publicKey vm.data.toJ vm.signature = true →
        n.currentHeight + 1 ≤ vm.data.height →
        vm.data.voter ∈ n.validators →
        ((¬ majorityQ n.validators.length
            (voterCount (addVoter n.precommits vm.data.height vm.data.blockHash vm.data.voter)
              vm.data.height vm.data.blockHash) →
          handlePrecommit (fuel + 1) n vm =
            { n with precommits :=
                addVoter n.precommits vm.data.height vm.data.blockHash vm.data.voter }) ∧
         (majorityQ n.validators.length
            (voterCount (addVoter n.precommits vm.data.height vm.data.blockHash vm.data.voter)
              vm.data.height vm.data.blockHash) →
          handlePrecommit (fuel + 1) n vm =
            finalizeBlock fuel
              { n with precommits :=
                  addVoter n.precommits vm.data.height vm.data.blockHash vm.data.voter }
              vm.data.height vm.data.blockHash))) := by
  refine ⟨?_, ?_, ?_⟩
  · intro vc h bh
    constructor
    · cases hag : aGet (h, bh) vc.prevotes with
      | none =>
          simp only [VoteCollector.hasPrevoteMajority, VoteCollector.getPrevoteCount, hag,
            Option.getD_none, List.length_nil]
          rw [← majority_iff_majorityQ]
          simp [majority]
      | some voters =>
          simp only [VoteCollector.hasPrevoteMajority, VoteCollector.getPrevoteCount, hag,
            Option.getD_some]
          exact majority_iff_majorityQ _ _
    · cases hag : aGet (h, bh) vc.precommits with
      | none =>
          simp only [VoteCollector.hasPrecommitMajority, VoteCollector.getPrecommitCount, hag,
            Option.getD_none, List.length_nil]
          rw [← majority_iff_majorityQ]
          simp [majority]
      | some voters =>
          simp only [VoteCollector.hasPrecommitMajority, VoteCollector.getPrecommitCount, hag,
            Option.getD_some]
          exact majority_iff_majorityQ _ _
  · intro fuel n vm hsig hht hvot
    constructor
    · intro hnom
      have hmajF : majority n.validators.length
          (voterCount (addVoter n.prevotes vm.data.height vm.data.blockHash vm.data.voter)
            vm.data.height vm.data.blockHash) = false := by
        cases hb : majority n.validators.length
            (voterCount (addVoter n.prevotes vm.data.height vm.data.blockHash vm.data.voter)
              vm.data.height vm.data.blockHash) with
        | false => rfl
        | true => exact absurd ((majority_iff_majorityQ _ _).mp hb) hnom
      simp only [handlePrevote]
      rw [if_neg (not_not_intro hsig), if_neg (by omega), if_neg (not_not_intro hvot),
        if_neg (by simp [hmajF])]
    · intro hmaj hval
      have hmajB : majority n.validators.length
          (voterCount (addVoter n.prevotes vm.data.height vm.data.blockHash vm.data.voter)
            vm.data.height vm.data.blockHash) = true :=
        (majority_iff_majorityQ _ _).mpr hmaj
      have hsend : ∀ m : Node, (vm.data.height, vm.data.blockHash) ∈
          (sendPrecommit (fuel + 1) m vm.data.height vm.data.blockHash).sentPrecommits := by
        intro m
        simp only [sendPrecommit]
        split
        · assumption
        · exact sentPrecommits_mono_handlePrecommit fuel _ _
            (List.mem_append_right _ (by simp))
      simp only [handlePrevote]
      rw [if_neg (not_not_intro hsig), if_neg (by omega), if_neg (not_not_intro hvot),
        if_pos hmajB, if_pos hval]
      repeat' split
      all_goals first
        | exact hsend _
        | exact sentPrecommits_mono_sendPrevote (fuel + 1) _ _ (hsend _)
  · intro fuel n vm hsig hht hvot
    constructor
    · intro hnom
      have hmajF : majority n.validators.length
          (voterCount (addVoter n.precommits vm.data.height vm.data.blockHash vm.data.voter)
            vm.data.height vm.data.blockHash) = false := by
        cases hb : majority n.validators.length
            (voterCount (addVoter n.precommits vm.data.height vm.data.blockHash vm.data.voter)
              vm.data.height vm.data.blockHash) with
        | false => rfl
        | true => exact absurd ((majority_iff_majorityQ _ _).mp hb) hnom
      simp only [handlePrecommit]
      rw [if_neg (not_not_intro hsig), if_neg (by omega), if_neg (not_not_intro hvot),
        if_neg (by simp [hmajF])]
    · intro hmaj
      have hmajB : majority n.validators.length
          (voterCount (addVoter n.precommits vm.data.height vm.data.blockHash vm.data.voter)
            vm.data.height vm.data.blockHash) = true :=
        (majority_iff_majorityQ _ _).mpr hmaj
      simp only [handlePrecommit]
      rw [if_neg (not_not_intro hsig), if_neg (by omega), if_neg (not_not_intro hvot),
        if_pos hmajB]

theorem strict_majority_semantics_witness :
    majorityQ 3 2 ∧
    handlePrevote 1 n0Node (mkPrevote 1 "bh" "A") =
      { n0Node with prevotes := addVoter n0Node.prevotes 1 "bh" "A" } ∧
    ((1, "bh") ∈ (handlePrevote 2 n3Node (mkPrevote 1 "bh" "B")).sentPrecommits) ∧
    handlePrecommit 1 n0Node (mkPrecommitVm 1 "bh" "A") =
      { n0Node with precommits := addVoter n0Node.precommits 1 "bh" "A" } ∧
    handlePrecommit 1 n3Node (mkPrecommitVm 1 "bh" "B") =
      finalizeBlock 0 { n3Node with precommits := addVoter n3Node.precommits 1 "bh" "B" }
        1 "bh" := by
  refine ⟨(strict_majority_semantics.1 vcW 1 "bh").1.mp (by decide), ?_, ?_, ?_, ?_⟩
  · exact (strict_majority_semantics.2.1 0 n0Node (mkPrevote 1 "bh" "A")
      (by decide) (by decide) (by decide)).1
      (by rw [← majority_iff_majorityQ]; decide)
  · exact (strict_majority_semantics.2.1 0 n3Node (mkPrevote 1 "bh" "B")
      (by decide) (by decide) (by decide)).2
      (by rw [← majority_iff_majorityQ]; decide) (by decide)
  · exact (strict_majority_semantics.2.2 0 n0Node (mkPrecommitVm 1 "bh" "A")
      (by decide) (by decide) (by decide)).1
      (by rw [← majority_iff_majorityQ]; decide)
  · exact (strict_majority_semantics.2.2 0 n3Node (mkPrecommitVm 1 "bh" "B")
      (by decide) (by decide) (by decide)).2
      (by rw [← majority_iff_majorityQ]; decide)

end BlockSim
